import Mathlib

/-!
Verification development for the `vendure-plugin-deep-pagination` repository.

The development shallowly embeds the core of
`src/deep-pagination.service.ts` (`DeepPaginationService`): the cursor
codec (`encodeCursor` / `decodeCursor`, i.e. base64 over `JSON.stringify`
/ `JSON.parse` over UTF-8 bytes), the deterministic sort builder
(`buildSort`), the query builder (`buildQuery`), and the page-fetch
orchestration (`cursorSearch`).  JavaScript numbers are modelled as
integers (floating point is out of scope); JavaScript `undefined` for an
optional field is `Option.none`; JavaScript truthiness of strings and
numbers (empty string and `0` are falsy) is modelled explicitly at each
use site.  The Elasticsearch client is an explicit function parameter
`engine`, since the network call is the single external effect.
-/

namespace DeepPagination

/-! ## JSON values

`Json` models the values produced by `JSON.parse` (numbers restricted to
integers).  `SValue` models the scalar sort values that Elasticsearch
attaches to hits and that travel through cursors. -/

inductive Json where
  | null
  | bool (b : Bool)
  | num (n : Int)
  | str (s : String)
  | arr (xs : List Json)
  | obj (kvs : List (String × Json))

/-- Scalar sort values (number / string / boolean / null), the supported
scalar types of the cursor payload. -/
inductive SValue where
  | null
  | bool (b : Bool)
  | num (n : Int)
  | str (s : String)
deriving DecidableEq

/-- The scalar, seen as the JSON value `JSON.parse` would produce for it. -/
def SValue.toJson : SValue → Json
  | .null => .null
  | .bool b => .bool b
  | .num n => .num n
  | .str s => .str s

/-- Structure `SearchAfterValues` from `types.ts`: the payload serialized into a
cursor — the sort values of the last hit plus the sort field names. -/
structure SearchAfterValues where
  values : List SValue
  sortFields : List String
deriving DecidableEq

/-- JavaScript property access `j.k` on a parsed JSON value: `none` models
`undefined` (non-objects and missing keys).  `JSON.parse` keeps the last
of duplicate keys, hence the reversed lookup. -/
def jsGet (j : Json) (k : String) : Option Json :=
  match j with
  | .obj kvs => (kvs.reverse.find? (fun kv => kv.1 = k)).map (fun kv => kv.2)
  | _ => none

/-! ## `JSON.stringify` for the cursor payload

`encodeCursor` serializes exactly the object
`{ values: [...], sortFields: [...] }`, so the serializer is defined for
that shape: scalars, string lists, and the two-field object, in the key
order of the object literal at the call site. -/

/-- Hex digit character (lowercase, as `JSON.stringify` uses for `\u00xx`). -/
def hexChar (n : Nat) : Char :=
  if n < 10 then Char.ofNat (48 + n) else Char.ofNat (87 + n)

/-- One character of a JSON string body, escaped as `JSON.stringify` does:
`"` and `\` get a backslash, the common control characters get their
short escapes, other control characters get `\u00xx`. -/
def escapeChar (c : Char) : List Char :=
  if c = '"' then ['\\', '"']
  else if c = '\\' then ['\\', '\\']
  else if c = '\n' then ['\\', 'n']
  else if c = '\r' then ['\\', 'r']
  else if c = '\t' then ['\\', 't']
  else if c = '\x08' then ['\\', 'b']
  else if c = '\x0c' then ['\\', 'f']
  else if c.toNat < 32 then ['\\', 'u', '0', '0', hexChar (c.toNat / 16), hexChar (c.toNat % 16)]
  else [c]

def escapeString (s : List Char) : List Char :=
  match s with
  | [] => []
  | c :: rest => escapeChar c ++ escapeString rest

/-- A JSON string literal: quote, escaped body, quote. -/
def quoteString (s : String) : List Char :=
  '"' :: escapeString s.toList ++ ['"']

/-- Decimal digits of a natural number, little-endian, with explicit fuel
(`fuel ≥ n` is enough). -/
def natCharsAux : Nat → Nat → List Char
  | 0, _ => []
  | _ + 1, 0 => []
  | f + 1, n + 1 => Char.ofNat (48 + (n + 1) % 10) :: natCharsAux f ((n + 1) / 10)

/-- Decimal notation of a natural number, as `JSON.stringify` prints it. -/
def natChars (n : Nat) : List Char :=
  if n = 0 then ['0'] else (natCharsAux n n).reverse

/-- Decimal notation of an integer. -/
def intChars (n : Int) : List Char :=
  if n < 0 then '-' :: natChars (-n).toNat else natChars n.toNat

/-- Serialization (`JSON.stringify`) of one scalar sort value. -/
def stringifySV : SValue → List Char
  | .null => "null".toList
  | .bool true => "true".toList
  | .bool false => "false".toList
  | .num n => intChars n
  | .str s => quoteString s

/-- Comma-separated concatenation of already-serialized items. -/
def commaSep : List (List Char) → List Char
  | [] => []
  | [x] => x
  | x :: xs => x ++ ',' :: commaSep xs

/-- A JSON array literal from serialized items. -/
def arrayChars (items : List (List Char)) : List Char :=
  '[' :: commaSep items ++ [']']

/-- Serialization of the cursor object (`JSON.stringify` of the object literal), with the key order
of the object literal in `cursorSearch`. -/
def stringifySAV (sav : SearchAfterValues) : List Char :=
  '\x7b' :: (quoteString "values" ++ ':' :: arrayChars (sav.values.map stringifySV)
    ++ ',' :: quoteString "sortFields" ++ ':' :: arrayChars (sav.sortFields.map quoteString))
    ++ ['\x7d']

/-! ## `JSON.parse`

A fueled recursive-descent parser over characters, general enough for any
(integer-numbered) JSON value, modelling `JSON.parse` on the canonical
(whitespace-free) texts relevant here.  Mode 0 parses one value, mode 1 a
non-empty array tail, mode 2 a non-empty object tail. -/

def hexVal (c : Char) : Option Nat :=
  if '0' ≤ c ∧ c ≤ '9' then some (c.toNat - 48)
  else if 'a' ≤ c ∧ c ≤ 'f' then some (c.toNat - 87)
  else if 'A' ≤ c ∧ c ≤ 'F' then some (c.toNat - 55)
  else none

/-- Parse a JSON string body after the opening quote; returns the decoded
characters and the input after the closing quote. -/
def parseStringBody : List Char → Option (List Char × List Char)
  | [] => none
  | c :: r =>
    if c = '"' then some ([], r)
    else if c = '\\' then
      match r with
      | [] => none
      | e :: r2 =>
        if e = '"' then (parseStringBody r2).map (fun p => ('"' :: p.1, p.2))
        else if e = '\\' then (parseStringBody r2).map (fun p => ('\\' :: p.1, p.2))
        else if e = '/' then (parseStringBody r2).map (fun p => ('/' :: p.1, p.2))
        else if e = 'n' then (parseStringBody r2).map (fun p => ('\n' :: p.1, p.2))
        else if e = 'r' then (parseStringBody r2).map (fun p => ('\r' :: p.1, p.2))
        else if e = 't' then (parseStringBody r2).map (fun p => ('\t' :: p.1, p.2))
        else if e = 'b' then (parseStringBody r2).map (fun p => ('\x08' :: p.1, p.2))
        else if e = 'f' then (parseStringBody r2).map (fun p => ('\x0c' :: p.1, p.2))
        else if e = 'u' then
          match r2 with
          | h1 :: h2 :: h3 :: h4 :: r3 =>
            match hexVal h1, hexVal h2, hexVal h3, hexVal h4 with
            | some a, some b, some c2, some d =>
              let m := ((a * 16 + b) * 16 + c2) * 16 + d
              if m.isValidChar then (parseStringBody r3).map (fun p => (Char.ofNat m :: p.1, p.2))
              else none
            | _, _, _, _ => none
          | _ => none
        else none
    else if c.toNat < 32 then none
    else (parseStringBody r).map (fun p => (c :: p.1, p.2))

/-- Value of a maximal run of decimal digits (with the input after it);
`none` when the input does not start with a digit. -/
def parseDigits (cs : List Char) : Option (Nat × List Char) :=
  let ds := cs.takeWhile Char.isDigit
  if ds.isEmpty then none
  else some (ds.foldl (fun acc c => acc * 10 + (c.toNat - 48)) 0, cs.dropWhile Char.isDigit)

/-- Result of one `parseCore` step: a value, array elements, or object
entries. -/
inductive POut where
  | v (j : Json)
  | vs (js : List Json)
  | kvs (l : List (String × Json))

/-- One layer of the JSON value parser; `recurse` is the next (one less
fuel) layer, `mode` as described above. -/
def parseStep (recurse : Nat → List Char → Option (POut × List Char)) :
    Nat → List Char → Option (POut × List Char)
  | 0, cs =>
    match cs with
    | [] => none
    | c :: r =>
      if c = 'n' then
        match r with
        | 'u' :: 'l' :: 'l' :: r2 => some (.v .null, r2)
        | _ => none
      else if c = 't' then
        match r with
        | 'r' :: 'u' :: 'e' :: r2 => some (.v (.bool true), r2)
        | _ => none
      else if c = 'f' then
        match r with
        | 'a' :: 'l' :: 's' :: 'e' :: r2 => some (.v (.bool false), r2)
        | _ => none
      else if c = '"' then
        (parseStringBody r).map (fun p => (.v (.str (String.mk p.1)), p.2))
      else if c = '[' then
        match r with
        | [] => none
        | c2 :: r2 =>
          if c2 = ']' then some (.v (.arr []), r2)
          else
            match recurse 1 (c2 :: r2) with
            | some (.vs js, rest) => some (.v (.arr js), rest)
            | _ => none
      else if c = '\x7b' then
        match r with
        | [] => none
        | c2 :: r2 =>
          if c2 = '\x7d' then some (.v (.obj []), r2)
          else
            match recurse 2 (c2 :: r2) with
            | some (.kvs l, rest) => some (.v (.obj l), rest)
            | _ => none
      else if c = '-' then
        match parseDigits r with
        | some (n, rest) => some (.v (.num (-(n : Int))), rest)
        | none => none
      else if c.isDigit then
        match parseDigits (c :: r) with
        | some (n, rest) => some (.v (.num (n : Int)), rest)
        | none => none
      else none
  | 1, cs =>
    match recurse 0 cs with
    | some (.v j, c :: r2) =>
      if c = ',' then
        match recurse 1 r2 with
        | some (.vs js, rest) => some (.vs (j :: js), rest)
        | _ => none
      else if c = ']' then some (.vs [j], r2)
      else none
    | _ => none
  | 2, cs =>
    match cs with
    | [] => none
    | c0 :: r =>
      if c0 = '"' then
        match parseStringBody r with
        | some (k, c1 :: r2) =>
          if c1 = ':' then
            match recurse 0 r2 with
            | some (.v j, c3 :: r3) =>
              if c3 = ',' then
                match recurse 2 r3 with
                | some (.kvs l, rest) => some (.kvs ((String.mk k, j) :: l), rest)
                | _ => none
              else if c3 = '\x7d' then some (.kvs [(String.mk k, j)], r3)
              else none
            | _ => none
          else none
        | _ => none
      else none
  | _ + 3, _ => none

def parseCore : Nat → Nat → List Char → Option (POut × List Char)
  | 0, _, _ => none
  | f + 1, mode, cs => parseStep (parseCore f) mode cs

/-- Model of `JSON.parse` (on canonical texts): parse one value consuming the whole
input. -/
def parseJson (cs : List Char) : Option Json :=
  match parseCore (cs.length + 1) 0 cs with
  | some (.v j, []) => some j
  | _ => none

/-! ## UTF-8 (`Buffer.from(string)` / `buffer.toString('utf-8')`) -/

def utf8EncodeChar (c : Char) : List Nat :=
  let n := c.toNat
  if n < 128 then [n]
  else if n < 2048 then [192 + n / 64, 128 + n % 64]
  else if n < 65536 then [224 + n / 4096, 128 + n / 64 % 64, 128 + n % 64]
  else [240 + n / 262144, 128 + n / 4096 % 64, 128 + n / 64 % 64, 128 + n % 64]

def utf8Encode : List Char → List Nat
  | [] => []
  | c :: r => utf8EncodeChar c ++ utf8Encode r

/-- Continuation byte check `10xxxxxx`. -/
def utf8Cont (b : Nat) : Bool :=
  decide (128 ≤ b) && decide (b < 192)

/-- Decode the tail of a 2-byte sequence headed by `b`. -/
def utf8Tail2 (recurse : List Nat → Option (List Char)) (b : Nat) :
    List Nat → Option (List Char)
  | b2 :: r2 =>
    if utf8Cont b2 then
      let m := (b - 192) * 64 + (b2 - 128)
      if 128 ≤ m then (recurse r2).map (fun cs => Char.ofNat m :: cs) else none
    else none
  | [] => none

/-- Decode the tail of a 3-byte sequence headed by `b` (rejecting overlong
encodings and surrogates). -/
def utf8Tail3 (recurse : List Nat → Option (List Char)) (b : Nat) :
    List Nat → Option (List Char)
  | b2 :: b3 :: r2 =>
    if utf8Cont b2 && utf8Cont b3 then
      let m := (b - 224) * 4096 + (b2 - 128) * 64 + (b3 - 128)
      if 2048 ≤ m ∧ ¬ (55296 ≤ m ∧ m < 57344) then
        (recurse r2).map (fun cs => Char.ofNat m :: cs)
      else none
    else none
  | _ => none

/-- Decode the tail of a 4-byte sequence headed by `b`. -/
def utf8Tail4 (recurse : List Nat → Option (List Char)) (b : Nat) :
    List Nat → Option (List Char)
  | b2 :: b3 :: b4 :: r2 =>
    if utf8Cont b2 && utf8Cont b3 && utf8Cont b4 then
      let m := (b - 240) * 262144 + (b2 - 128) * 4096 + (b3 - 128) * 64 + (b4 - 128)
      if 65536 ≤ m ∧ m < 1114112 then
        (recurse r2).map (fun cs => Char.ofNat m :: cs)
      else none
    else none
  | _ => none

/-- One decoding step, classifying the lead byte. -/
def utf8DecodeStep (recurse : List Nat → Option (List Char)) :
    List Nat → Option (List Char)
  | [] => some []
  | b :: r =>
    if b < 128 then (recurse r).map (fun cs => Char.ofNat b :: cs)
    else if b < 192 then none
    else if b < 224 then utf8Tail2 recurse b r
    else if b < 240 then utf8Tail3 recurse b r
    else if b < 248 then utf8Tail4 recurse b r
    else none

/-- Fueled decoding loop; each step consumes at least one byte, so fuel
equal to the byte count suffices. -/
def utf8DecodeGo : Nat → List Nat → Option (List Char)
  | 0, [] => some []
  | 0, _ :: _ => none
  | f + 1, bs => utf8DecodeStep (utf8DecodeGo f) bs

def utf8Decode (bs : List Nat) : Option (List Char) :=
  utf8DecodeGo bs.length bs

/-! ## Base64 (`buffer.toString('base64')` / `Buffer.from(s, 'base64')`) -/

def b64Char (n : Nat) : Char :=
  if n < 26 then Char.ofNat (65 + n)
  else if n < 52 then Char.ofNat (71 + n)
  else if n < 62 then Char.ofNat (n - 4)
  else if n = 62 then '+'
  else '/'

def b64Val (c : Char) : Option Nat :=
  if 'A' ≤ c ∧ c ≤ 'Z' then some (c.toNat - 65)
  else if 'a' ≤ c ∧ c ≤ 'z' then some (c.toNat - 71)
  else if '0' ≤ c ∧ c ≤ '9' then some (c.toNat + 4)
  else if c = '+' then some 62
  else if c = '/' then some 63
  else none

def b64Encode : List Nat → List Char
  | [] => []
  | [b1] => [b64Char (b1 / 4), b64Char (b1 % 4 * 16), '=', '=']
  | [b1, b2] => [b64Char (b1 / 4), b64Char (b1 % 4 * 16 + b2 / 16), b64Char (b2 % 16 * 4), '=']
  | b1 :: b2 :: b3 :: rest =>
    b64Char (b1 / 4) :: b64Char (b1 % 4 * 16 + b2 / 16) :: b64Char (b2 % 16 * 4 + b3 / 64)
      :: b64Char (b3 % 64) :: b64Encode rest

def b64Decode : List Char → Option (List Nat)
  | [] => some []
  | c1 :: c2 :: c3 :: c4 :: rest =>
    if c3 = '=' ∧ c4 = '=' ∧ rest = [] then
      match b64Val c1, b64Val c2 with
      | some s1, some s2 => some [s1 * 4 + s2 / 16]
      | _, _ => none
    else if c4 = '=' ∧ rest = [] then
      match b64Val c1, b64Val c2, b64Val c3 with
      | some s1, some s2, some s3 => some [s1 * 4 + s2 / 16, s2 % 16 * 16 + s3 / 4]
      | _, _, _ => none
    else
      match b64Val c1, b64Val c2, b64Val c3, b64Val c4, b64Decode rest with
      | some s1, some s2, some s3, some s4, some bs =>
        some ((s1 * 4 + s2 / 16) :: (s2 % 16 * 16 + s3 / 4) :: (s3 % 4 * 64 + s4) :: bs)
      | _, _, _, _, _ => none
  | _ => none

/-! ## The cursor codec (`encodeCursor` / `decodeCursor`) -/

/-- Source `encodeCursor`: `Buffer.from(JSON.stringify(searchAfter)).toString('base64')`. -/
def encodeCursor (searchAfter : SearchAfterValues) : String :=
  String.mk (b64Encode (utf8Encode (stringifySAV searchAfter)))

/-- Source `decodeCursor`: `JSON.parse(Buffer.from(cursor, 'base64').toString('utf-8'))`,
with any failure mapped to the single `Invalid cursor format` error. -/
def decodeCursor (cursor : String) : Except String Json :=
  match b64Decode cursor.toList with
  | none => .error "Invalid cursor format"
  | some bytes =>
    match utf8Decode bytes with
    | none => .error "Invalid cursor format"
    | some cs =>
      match parseJson cs with
      | none => .error "Invalid cursor format"
      | some j => .ok j

/-! ## Service inputs (`types.ts`) -/

inductive SortDir where
  | ASC
  | DESC
deriving DecidableEq

/-- Lower-casing `sortInput.name.toLowerCase()` on the `'ASC' | 'DESC'` enum. -/
def SortDir.toLower : SortDir → String
  | .ASC => "asc"
  | .DESC => "desc"

/-- Type `CursorSearchInput['sort']` (the `createdAt` member exists in the type
but is ignored by `buildSort`). -/
structure SortInput where
  name : Option SortDir
  price : Option SortDir
  createdAt : Option SortDir
deriving DecidableEq

/-- Input type `CursorSearchInput`; `none` is an absent (`undefined`) field, `take`
is a JavaScript number modelled as an integer. -/
structure CursorSearchInput where
  term : Option String
  facetValueIds : Option (List String)
  facetValueOperator : Option String
  collectionId : Option String
  collectionSlug : Option String
  groupByProduct : Option Bool
  take : Option Int
  cursor : Option String
  sort : Option SortInput
deriving DecidableEq

/-! ## `buildSort` -/

/-- One element of the Elasticsearch sort array, `{ field: { order } }`. -/
structure SortEntry where
  field : String
  order : String
deriving DecidableEq

/-- The caller-requested part of the sort array (`buildSort` lines
178–185): `name` maps to `productName.keyword`, `price` to
`priceWithTax`, directions lower-cased; `createdAt` is dropped. -/
def requestedSortEntries (sortInput : Option SortInput) : List SortEntry :=
  match sortInput with
  | none => []
  | some si =>
    (match si.name with
     | some d => [⟨"productName.keyword", d.toLower⟩]
     | none => [])
      ++ (match si.price with
          | some d => [⟨"priceWithTax", d.toLower⟩]
          | none => [])

/-- Source `buildSort`: requested entries, then `productId asc` unless already
present, then always `productVariantId asc`. -/
def buildSort (sortInput : Option SortInput) : List SortEntry :=
  let sort := requestedSortEntries sortInput
  let sort2 :=
    if sort.any (fun s => s.field = "productId") then sort
    else sort ++ [⟨"productId", "asc"⟩]
  sort2 ++ [⟨"productVariantId", "asc"⟩]

/-! ## `buildQuery` -/

/-- The Elasticsearch query fragments `buildQuery` can produce. -/
inductive ESQuery where
  | matchAll
  | multiMatch (query : String) (fields : List String) (mtype : String) (fuzziness : String)
  | termQ (field : String) (value : String)
  | boolQ (must : List ESQuery) (should : List ESQuery) (filter : List ESQuery)

/-- Source `buildQuery`: text search into `must` (with `match_all` fallback),
facet bool and collection term into `filter`.  Empty strings are falsy in
the JavaScript conditions. -/
def buildQuery (input : CursorSearchInput) : ESQuery :=
  let mustL : List ESQuery :=
    match input.term with
    | some t =>
      if t = "" then []
      else [.multiMatch t ["productName^3", "description", "sku^2"] "best_fields" "AUTO"]
    | none => []
  let facetL : List ESQuery :=
    match input.facetValueIds with
    | some ids =>
      if ids.length > 0 then
        if input.facetValueOperator = some "AND" then
          [.boolQ (ids.map (fun id => .termQ "facetValueIds" id)) [] []]
        else
          [.boolQ [] (ids.map (fun id => .termQ "facetValueIds" id)) []]
      else []
    | none => []
  let collL : List ESQuery :=
    match input.collectionId with
    | some cid => if cid = "" then [] else [.termQ "collectionIds" cid]
    | none => []
  let mustFinal := if mustL.isEmpty then [.matchAll] else mustL
  .boolQ mustFinal [] (facetL ++ collL)

/-- The indexed facet/collection ids of one document, for the query
semantics. -/
structure Doc where
  facetValueIds : List String
  collectionIds : List String

/-- Values a `term` query reads on a document for a given field name. -/
def docFieldVals (d : Doc) (f : String) : List String :=
  if f = "facetValueIds" then d.facetValueIds
  else if f = "collectionIds" then d.collectionIds
  else []

/-- Elasticsearch boolean-query satisfaction: `tm` is the (abstract)
full-text relevance oracle for `multi_match`; a `bool` requires all of
`must` and `filter`, and at least one `should` clause exactly when it has
`should` clauses but no `must`/`filter` (the `minimum_should_match`
default). -/
inductive Matches (tm : String → Doc → Bool) (d : Doc) : ESQuery → Prop where
  | matchAll : Matches tm d .matchAll
  | multiMatch {t : String} {fs : List String} {ty fz : String} :
      tm t d = true → Matches tm d (.multiMatch t fs ty fz)
  | termQ {f v : String} : v ∈ docFieldVals d f → Matches tm d (.termQ f v)
  | boolAll {m s f : List ESQuery} :
      (m ≠ [] ∨ f ≠ [] ∨ s = []) →
      (∀ q ∈ m, Matches tm d q) →
      (∀ q ∈ f, Matches tm d q) →
      Matches tm d (.boolQ m s f)
  | boolShould {s : List ESQuery} {q : ESQuery} :
      q ∈ s → Matches tm d q → Matches tm d (.boolQ [] s [])

/-- Modelled from the spec (§4.3): the intended boolean combination — all
supplied groups ANDed; within the facet group the operator picks AND/OR;
an absent group imposes nothing. -/
def specFilterSemantics (tm : String → Doc → Bool) (d : Doc) (input : CursorSearchInput) : Prop :=
  (∀ t, input.term = some t → t ≠ "" → tm t d = true)
    ∧ (∀ ids, input.facetValueIds = some ids → ids ≠ [] →
        if input.facetValueOperator = some "AND" then ∀ id ∈ ids, id ∈ d.facetValueIds
        else ∃ id ∈ ids, id ∈ d.facetValueIds)
    ∧ (∀ cid, input.collectionId = some cid → cid ≠ "" → cid ∈ d.collectionIds)

/-! ## Hits, result mapping, and the page orchestration (`cursorSearch`) -/

/-- The `_source` fields the result mapper reads.  Prices are JavaScript
numbers or `undefined`. -/
structure HitSource where
  productId : String
  productName : String
  slug : String
  description : String
  productPriceWithTaxMin : Option Int
  productPriceWithTaxMax : Option Int
  priceWithTax : Option Int
  productAssetId : Option Int
  productPreview : String
  currencyCode : String
  facetValueIds : Option (List String)
  collectionIds : Option (List String)

/-- One Elasticsearch hit: source payload, the engine-attached sort
values, and the relevance score. -/
structure ESHit where
  source : HitSource
  sort : Option (List SValue)
  score : Option Int

/-- JavaScript `a || b` on possibly-undefined numbers (`0` is falsy). -/
def jsOrOpt (a b : Option Int) : Option Int :=
  match a with
  | some n => if n = 0 then b else some n
  | none => b

inductive PriceOut where
  | single (value : Option Int)
  | range (min max : Option Int)

structure AssetOut where
  id : String
  preview : String

/-- The Vendure `SearchResult` projection of one hit. -/
structure SearchResultItem where
  productId : String
  productName : String
  slug : String
  description : String
  productAsset : Option AssetOut
  priceWithTax : PriceOut
  currencyCode : String
  facetValueIds : List String
  collectionIds : List String
  score : Option Int

/-- The result mapper (`cursorSearch` lines 72–99). -/
def mapHit (hit : ESHit) : SearchResultItem :=
  let source := hit.source
  let priceMin := jsOrOpt source.productPriceWithTaxMin source.priceWithTax
  let priceMax := jsOrOpt source.productPriceWithTaxMax source.priceWithTax
  let priceWithTax :=
    if priceMin = priceMax then PriceOut.single priceMin else PriceOut.range priceMin priceMax
  ⟨source.productId, source.productName, source.slug, source.description,
    (match source.productAssetId with
     | some aid =>
       if aid = 0 then none else some ⟨String.mk (intChars aid), source.productPreview⟩
     | none => none),
    priceWithTax, source.currencyCode, source.facetValueIds.getD [],
    source.collectionIds.getD [], hit.score⟩

/-- Field `response.hits.total`: a plain number, a `{ value }` relation object,
or absent. -/
inductive ESTotal where
  | num (n : Int)
  | rel (value : Option Int)
  | undef

/-- Evaluation of `typeof total === 'number' ? total : total?.value || 0`. -/
def totalOf : ESTotal → Int
  | .num n => n
  | .rel v => v.getD 0
  | .undef => 0

structure ESResponse where
  hits : List ESHit
  total : ESTotal

/-- An error thrown by the Elasticsearch client. -/
structure EngineError where
  name : String
  message : String
deriving DecidableEq

/-- What `cursorSearch` can throw: an `Error` created by the plugin
itself, or an engine error rethrown unchanged by the catch block. -/
inductive JsError where
  | pluginError (message : String)
  | engineError (e : EngineError)
deriving DecidableEq

structure CursorSearchResult where
  items : List SearchResultItem
  totalItems : Int
  hasMore : Bool
  nextCursor : Option String
  prevCursor : Option String

/-- Evaluation of `Math.min(input.take || 100, 1000)` — `0` and absence both fall back
to 100; the cap is the hard-coded 1000. -/
def effectiveTake (take : Option Int) : Int :=
  min (match take with
       | none => 100
       | some n => if n = 0 then 100 else n) 1000

/-- Model of `Array.prototype.slice(0, e)` with a possibly negative end index. -/
def jsSliceTo {α : Type} (l : List α) (e : Int) : List α :=
  if e < 0 then l.take (((l.length : Int) + e).toNat) else l.take e.toNat

/-- Evaluation of `input.cursor ? this.decodeCursor(input.cursor) : undefined` — the
empty string is falsy; a decode failure propagates out of `cursorSearch`
(the decode happens before the `try` block). -/
def searchAfterOf (input : CursorSearchInput) : Except JsError (Option Json) :=
  match input.cursor with
  | none => .ok none
  | some c =>
    if c = "" then .ok none
    else
      match decodeCursor c with
      | .ok j => .ok (some j)
      | .error msg => .error (.pluginError msg)

/-- The single search request `cursorSearch` issues: wildcard index
pattern, query, sort, `size: take + 1`, `search_after: searchAfter?.values`,
`track_total_hits: true`. -/
structure SearchRequest where
  index : String
  query : ESQuery
  sort : List SortEntry
  size : Int
  searchAfter : Option Json
  trackTotalHits : Bool

/-- Access `searchAfter?.values`: optional chaining on the decoded cursor. -/
def jsGetValues (sa : Option Json) : Option Json :=
  sa.bind (fun j => jsGet j "values")

def buildRequest (idxPre : String) (input : CursorSearchInput) (sa : Option Json) : SearchRequest :=
  ⟨idxPre ++ "variants*", buildQuery input, buildSort input.sort,
    effectiveTake input.take + 1, jsGetValues sa, true⟩

/-- Evaluation of `encodeCursor({ values: items[items.length-1].sort || [], sortFields:
sort.map(...) })` for a non-empty retained page, `undefined` otherwise. -/
def lastSortCursor (sortL : List SortEntry) (items : List ESHit) : Option String :=
  match items.getLast? with
  | some last => some (encodeCursor ⟨last.sort.getD [], sortL.map SortEntry.field⟩)
  | none => none

/-- Lines 54–107: overfetch detection (`hasMore`), trim, next-cursor
derivation, result mapping. -/
def pageFromResponse (input : CursorSearchInput) (resp : ESResponse) : CursorSearchResult :=
  let take := effectiveTake input.take
  let hits := resp.hits
  let hasMore : Bool := decide (take < (hits.length : Int))
  let items := if hasMore then jsSliceTo hits take else hits
  let nextCursor := if hasMore then lastSortCursor (buildSort input.sort) items else none
  ⟨items.map mapHit, totalOf resp.total, hasMore, nextCursor, none⟩

/-- The index queries a `cursorSearch` call issues (one, unless the
cursor fails to decode first). -/
def cursorSearchRequests (idxPre : String) (input : CursorSearchInput) : List SearchRequest :=
  match searchAfterOf input with
  | .error _ => []
  | .ok sa => [buildRequest idxPre input sa]

/-- Source `cursorSearch`, with the Elasticsearch client as the explicit
`engine` parameter.  The catch block logs and rethrows the engine error
unchanged. -/
def cursorSearch (idxPre : String) (engine : SearchRequest → Except EngineError ESResponse)
    (input : CursorSearchInput) : Except JsError CursorSearchResult :=
  match searchAfterOf input with
  | .error e => .error e
  | .ok sa =>
    match engine (buildRequest idxPre input sa) with
    | .error e => .error (.engineError e)
    | .ok resp => .ok (pageFromResponse input resp)

/-! ## Cursor payload, as seen after decoding -/

/-- The JSON value `decodeCursor` yields on a cursor produced by
`encodeCursor`. -/
def savToJson (sav : SearchAfterValues) : Json :=
  .obj [("values", .arr (sav.values.map SValue.toJson)), ("sortFields", .arr (sav.sortFields.map Json.str))]

def readScalar : Json → Option SValue
  | .null => some .null
  | .bool b => some (.bool b)
  | .num n => some (.num n)
  | .str s => some (.str s)
  | _ => none

def readString : Json → Option String
  | .str s => some s
  | _ => none

def readScalars : List Json → Option (List SValue)
  | [] => some []
  | j :: js =>
    match readScalar j, readScalars js with
    | some v, some vs => some (v :: vs)
    | _, _ => none

def readStrings : List Json → Option (List String)
  | [] => some []
  | j :: js =>
    match readString j, readStrings js with
    | some v, some vs => some (v :: vs)
    | _, _ => none

/-- Reading the `(values, sortFields)` pair back off a decoded cursor. -/
def readSAV (j : Json) : Option SearchAfterValues :=
  match jsGet j "values", jsGet j "sortFields" with
  | some (.arr vs), some (.arr fs) =>
    match readScalars vs, readStrings fs with
    | some values, some fields => some ⟨values, fields⟩
    | _, _ => none
  | _, _ => none

/-! ## Small auxiliary definitions for the statements and proofs -/

/-- The input does not begin with a decimal digit (so a maximal digit run
ends right before it). -/
def headNotDigit (cs : List Char) : Prop :=
  ∀ ch, cs.head? = some ch → ch.isDigit = false

/-- The externally observable pagination signal of a `cursorSearch`
outcome: `(hasMore, nextCursor)` of a successful page, `none` on error. -/
def pageSignal (r : Except JsError CursorSearchResult) : Option (Bool × Option String) :=
  match r with
  | .ok p => some (p.hasMore, p.nextCursor)
  | .error _ => none

/-- An engine stub returning no hits and total 0. -/
def emptyEngine : SearchRequest → Except EngineError ESResponse :=
  fun _ => .ok ⟨[], .num 0⟩

/-- An engine stub failing every request with the given client error. -/
def failingEngine (e : EngineError) : SearchRequest → Except EngineError ESResponse :=
  fun _ => .error e

/-- A `CursorSearchInput` with every field absent. -/
def emptyInput : CursorSearchInput :=
  ⟨none, none, none, none, none, none, none, none, none⟩

/-- Did the plugin itself raise (create) the error, or is it the raw
engine error rethrown? -/
def isPluginRaised : JsError → Bool
  | .pluginError _ => true
  | .engineError _ => false

/-- A cursor payload as produced under a price-first sort specification
(three sort fields). -/
def savA : SearchAfterValues :=
  ⟨[.num 5, .str "p1", .str "v1"], ["priceWithTax", "productId", "productVariantId"]⟩

/-- A request replaying `savA`'s cursor under a *name* sort — a different
sort specification with the same field count. -/
def inputB : CursorSearchInput :=
  ⟨none, none, none, none, none, none, none, some (encodeCursor savA),
    some ⟨some .ASC, none, none⟩⟩

/-- A request whose cursor is valid base64/JSON (`"42"`, i.e. the JSON
number 42) but not an object with a `values` field. -/
def inputC10 : CursorSearchInput :=
  ⟨none, none, none, none, none, none, none, some "NDI=", none⟩

/-- A request with the (unvalidated) page size `-1`. -/
def inputTakeNeg : CursorSearchInput :=
  ⟨none, none, none, none, none, none, some (-1), none, none⟩

/-- A caller-requested name-ascending sort. -/
def sortNameAsc : SortInput := ⟨some .ASC, none, none⟩

/-- A typical Elasticsearch client failure. -/
def teErr : EngineError := ⟨"TimeoutError", "Request timed out"⟩

/-! # Proofs

## Characters and decimal digits -/

theorem toNat_ofNat_valid (m : Nat) (h : Nat.isValidChar m) : (Char.ofNat m).toNat = m := by
  unfold Char.ofNat
  rw [dif_pos h]
  simp [Char.ofNatAux, Char.toNat, UInt32.ofNat', UInt32.toNat]

theorem ofNat_toNat_char (c : Char) : Char.ofNat c.toNat = c := by
  unfold Char.ofNat
  rw [dif_pos (show c.toNat.isValidChar from c.valid)]
  rcases c with ⟨⟨⟨v, hv⟩⟩, valid⟩
  rfl

theorem char_toNat_lt (c : Char) : c.toNat < 1114112 := by
  have h := c.valid
  rcases h with h | ⟨_, h⟩ <;> (simp only [Char.toNat]; omega)

theorem digitChar_toNat (d : Nat) (h : d < 10) : (Char.ofNat (48 + d)).toNat = 48 + d :=
  toNat_ofNat_valid _ (Or.inl (by omega))

theorem digitChar_isDigit (d : Nat) (h : d < 10) : (Char.ofNat (48 + d)).isDigit = true := by
  interval_cases d <;> decide

theorem isDigit_toNat {c : Char} (h : c.isDigit = true) : 48 ≤ c.toNat ∧ c.toNat ≤ 57 := by
  simp only [Char.isDigit, decide_eq_true_eq, Bool.and_eq_true] at h
  exact ⟨h.1, h.2⟩

theorem natCharsAux_eq_digits (f n : Nat) (h : n ≤ f) :
    natCharsAux f n = (Nat.digits 10 n).map (fun d => Char.ofNat (48 + d)) := by
  induction f generalizing n with
  | zero =>
    interval_cases n
    simp [natCharsAux]
  | succ f ih =>
    match n with
    | 0 => simp [natCharsAux]
    | n + 1 =>
      rw [natCharsAux, Nat.digits_def' (by omega : 1 < 10) (by omega : 0 < n + 1)]
      have hdiv : (n + 1) / 10 ≤ f := by
        have := Nat.div_lt_self (show 0 < n + 1 by omega) (show 1 < 10 by omega)
        omega
      rw [ih _ hdiv]
      rfl

theorem natChars_digits (n : Nat) : ∀ c ∈ natChars n, c.isDigit = true := by
  intro c hc
  unfold natChars at hc
  split at hc
  · simp at hc
    subst hc
    decide
  · rw [natCharsAux_eq_digits n n le_rfl, List.mem_reverse, List.mem_map] at hc
    obtain ⟨d, hd, rfl⟩ := hc
    exact digitChar_isDigit d (Nat.digits_lt_base (by omega) hd)

theorem natChars_ne_nil (n : Nat) : natChars n ≠ [] := by
  unfold natChars
  split
  · simp
  · rw [natCharsAux_eq_digits n n le_rfl]
    simp [Nat.digits_ne_nil_iff_ne_zero, *]

theorem foldl_base10 (L : List Nat) (a : Nat) :
    L.reverse.foldl (fun acc d => acc * 10 + d) a = a * 10 ^ L.length + Nat.ofDigits 10 L := by
  induction L generalizing a with
  | nil => simp
  | cons d L ih =>
    simp only [List.reverse_cons, List.foldl_append, List.foldl_cons, List.foldl_nil, ih,
      Nat.ofDigits_cons, List.length_cons]
    ring

theorem foldl_digit_chars (L : List Nat) (hL : ∀ d ∈ L, d < 10) (a : Nat) :
    (L.map (fun d => Char.ofNat (48 + d))).foldl (fun acc c => acc * 10 + (c.toNat - 48)) a
      = L.foldl (fun acc d => acc * 10 + d) a := by
  induction L generalizing a with
  | nil => rfl
  | cons d L ih =>
    simp only [List.map_cons, List.foldl_cons]
    rw [digitChar_toNat d (hL d (by simp))]
    have : 48 + d - 48 = d := by omega
    rw [this, ih (fun x hx => hL x (by simp [hx]))]

theorem natChars_val (n : Nat) :
    (natChars n).foldl (fun acc c => acc * 10 + (c.toNat - 48)) 0 = n := by
  unfold natChars
  split
  · subst n
    decide
  · rw [natCharsAux_eq_digits n n le_rfl, ← List.map_reverse,
      foldl_digit_chars _ (fun d hd => Nat.digits_lt_base (by omega) (List.mem_reverse.mp hd)),
      foldl_base10]
    simp [Nat.ofDigits_digits]

theorem takeWhile_digits (ds rest : List Char) (hds : ∀ c ∈ ds, c.isDigit = true)
    (hrest : headNotDigit rest) :
    (ds ++ rest).takeWhile Char.isDigit = ds ∧ (ds ++ rest).dropWhile Char.isDigit = rest := by
  induction ds with
  | nil =>
    simp only [List.nil_append]
    cases rest with
    | nil => simp
    | cons c r =>
      have := hrest c rfl
      simp [List.takeWhile_cons, List.dropWhile_cons, this]
  | cons c ds ih =>
    have hc := hds c (by simp)
    have := ih (fun x hx => hds x (by simp [hx]))
    simp [List.takeWhile_cons, List.dropWhile_cons, hc, this.1, this.2]

theorem parseDigits_natChars (n : Nat) (rest : List Char) (hrest : headNotDigit rest) :
    parseDigits (natChars n ++ rest) = some (n, rest) := by
  obtain ⟨h1, h2⟩ := takeWhile_digits (natChars n) rest (natChars_digits n) hrest
  unfold parseDigits
  rw [h1, h2]
  simp only [List.isEmpty_eq_true]
  rw [if_neg (natChars_ne_nil n)]
  rw [natChars_val]

/-! ## JSON string bodies and scalars round-trip through the parser -/

theorem hexVal_hexChar (x : Nat) (h : x < 16) : hexVal (hexChar x) = some x := by
  interval_cases x <;> decide

theorem mk_toList (s : String) : String.mk s.toList = s := by
  cases s
  rfl

theorem parseStringBody_escape (s : List Char) (rest : List Char) :
    parseStringBody (escapeString s ++ '"' :: rest) = some (s, rest) := by
  induction s with
  | nil =>
    simp only [escapeString, List.nil_append]
    rw [parseStringBody.eq_def]
    simp
  | cons c s ih =>
    simp only [escapeString, List.append_assoc]
    by_cases h1 : c = '"'
    · subst h1
      rw [show escapeChar '"' = ['\\', '"'] from by decide]
      simp only [List.cons_append, List.nil_append]
      rw [parseStringBody.eq_def]
      simp [ih]
    by_cases h2 : c = '\\'
    · subst h2
      rw [show escapeChar '\\' = ['\\', '\\'] from by decide]
      simp only [List.cons_append, List.nil_append]
      rw [parseStringBody.eq_def]
      simp [ih]
    by_cases h3 : c = '\n'
    · subst h3
      rw [show escapeChar '\n' = ['\\', 'n'] from by decide]
      simp only [List.cons_append, List.nil_append]
      rw [parseStringBody.eq_def]
      simp [ih]
    by_cases h4 : c = '\r'
    · subst h4
      rw [show escapeChar '\r' = ['\\', 'r'] from by decide]
      simp only [List.cons_append, List.nil_append]
      rw [parseStringBody.eq_def]
      simp [ih]
    by_cases h5 : c = '\t'
    · subst h5
      rw [show escapeChar '\t' = ['\\', 't'] from by decide]
      simp only [List.cons_append, List.nil_append]
      rw [parseStringBody.eq_def]
      simp [ih]
    by_cases h6 : c = '\x08'
    · subst h6
      rw [show escapeChar '\x08' = ['\\', 'b'] from by decide]
      simp only [List.cons_append, List.nil_append]
      rw [parseStringBody.eq_def]
      simp [ih]
    by_cases h7 : c = '\x0c'
    · subst h7
      rw [show escapeChar '\x0c' = ['\\', 'f'] from by decide]
      simp only [List.cons_append, List.nil_append]
      rw [parseStringBody.eq_def]
      simp [ih]
    by_cases h8 : c.toNat < 32
    · have e1 : hexVal (hexChar (c.toNat / 16)) = some (c.toNat / 16) :=
        hexVal_hexChar _ (by omega)
      have e2 : hexVal (hexChar (c.toNat % 16)) = some (c.toNat % 16) :=
        hexVal_hexChar _ (by omega)
      have hm : ((0 * 16 + 0) * 16 + c.toNat / 16) * 16 + c.toNat % 16 = c.toNat := by omega
      have hv : Nat.isValidChar (c.toNat) := Or.inl (by omega)
      simp only [escapeChar, if_neg h1, if_neg h2, if_neg h3, if_neg h4, if_neg h5, if_neg h6,
        if_neg h7, if_pos h8, List.cons_append, List.nil_append]
      rw [parseStringBody.eq_def]
      simp only [show ('\\' : Char) = '"' ↔ False from by simp, if_false, if_pos rfl,
        reduceIte, show hexVal '0' = some 0 from by decide, e1, e2, hm]
      rw [if_pos hv]
      simp [ih, ofNat_toNat_char]
    · simp only [escapeChar, if_neg h1, if_neg h2, if_neg h3, if_neg h4, if_neg h5, if_neg h6,
        if_neg h7, if_neg h8, List.cons_append, List.nil_append]
      rw [parseStringBody.eq_def]
      simp [h1, h2, h8, ih]

theorem digit_ne_delims {c : Char} (h : c.isDigit = true) :
    c ≠ 'n' ∧ c ≠ 't' ∧ c ≠ 'f' ∧ c ≠ '"' ∧ c ≠ '[' ∧ c ≠ '\x7b' ∧ c ≠ '-' ∧ c ≠ ']' := by
  refine ⟨?_, ?_, ?_, ?_, ?_, ?_, ?_, ?_⟩ <;>
    exact fun hh => absurd (hh ▸ h) (by decide)

/-- Lemma: `parseCore` unfolds one fuel layer to `parseStep`. -/
theorem parseCore_succ (f mode : Nat) (cs : List Char) :
    parseCore (f + 1) mode cs = parseStep (parseCore f) mode cs := by
  simp only [parseCore]

/-- One scalar sort value parses back from its `JSON.stringify` text. -/
theorem parseCore_scalar (f : Nat) (v : SValue) (rest : List Char) (hrest : headNotDigit rest) :
    parseCore (f + 1) 0 (stringifySV v ++ rest) = some (.v v.toJson, rest) := by
  match v with
  | .null =>
    show parseCore (f + 1) 0 ('n' :: ('u' :: ('l' :: ('l' :: rest)))) = _
    simp [parseCore_succ, parseStep, SValue.toJson]
  | .bool true =>
    show parseCore (f + 1) 0 ('t' :: ('r' :: ('u' :: ('e' :: rest)))) = _
    simp [parseCore_succ, parseStep, SValue.toJson]
  | .bool false =>
    show parseCore (f + 1) 0 ('f' :: ('a' :: ('l' :: ('s' :: ('e' :: rest))))) = _
    simp [parseCore_succ, parseStep, SValue.toJson]
  | .str s =>
    show parseCore (f + 1) 0 (('"' :: (escapeString s.toList ++ ['"'])) ++ rest) = _
    simp only [List.cons_append, List.append_assoc, List.nil_append]
    simp [parseCore_succ, parseStep, parseStringBody_escape, mk_toList, SValue.toJson]
  | .num n =>
    rcases lt_or_le n 0 with hn | hn
    · show parseCore (f + 1) 0 ((if n < 0 then '-' :: natChars (-n).toNat else natChars n.toNat)
        ++ rest) = _
      rw [if_pos hn]
      simp only [List.cons_append]
      rw [parseCore_succ]
      simp only [parseStep]
      norm_num only
      rw [parseDigits_natChars _ _ hrest]
      simp only [Option.some.injEq, SValue.toJson]
      have : (((-n).toNat : Int)) = -n := Int.toNat_of_nonneg (by omega)
      rw [this]
      simp
    · show parseCore (f + 1) 0 ((if n < 0 then '-' :: natChars (-n).toNat else natChars n.toNat)
        ++ rest) = _
      rw [if_neg (by omega)]
      obtain ⟨c, cs, hcons⟩ : ∃ c cs, natChars n.toNat = c :: cs := by
        cases hh : natChars n.toNat with
        | nil => exact absurd hh (natChars_ne_nil _)
        | cons c cs => exact ⟨c, cs, rfl⟩
      have hc : c.isDigit = true := natChars_digits n.toNat c (by rw [hcons]; simp)
      obtain ⟨d1, d2, d3, d4, d5, d6, d7, d8⟩ := digit_ne_delims hc
      rw [hcons, parseCore_succ]
      simp only [List.cons_append, parseStep, if_neg d1, if_neg d2, if_neg d3, if_neg d4,
        if_neg d5, if_neg d6, if_neg d7, if_pos hc]
      have : c :: (cs ++ rest) = natChars n.toNat ++ rest := by rw [hcons]; rfl
      rw [this, parseDigits_natChars _ _ hrest]
      simp only [Option.some.injEq, SValue.toJson]
      rw [Int.toNat_of_nonneg hn]

/-! ## Arrays and the cursor object round-trip through the parser -/

theorem headNotDigit_of_head {c : Char} (h : c.isDigit = false) (cs : List Char) :
    headNotDigit (c :: cs) := by
  intro ch hch
  cases hch
  exact h

/-- Output of `stringifySV` is non-empty and never begins with `]`. -/
theorem stringifySV_cons (v : SValue) :
    ∃ c cs, stringifySV v = c :: cs ∧ c ≠ ']' := by
  match v with
  | .null => exact ⟨'n', _, rfl, by decide⟩
  | .bool true => exact ⟨'t', _, rfl, by decide⟩
  | .bool false => exact ⟨'f', _, rfl, by decide⟩
  | .str s => exact ⟨'"', _, rfl, by decide⟩
  | .num n =>
    show ∃ c cs, intChars n = c :: cs ∧ c ≠ ']'
    unfold intChars
    split
    · exact ⟨'-', _, rfl, by decide⟩
    · cases hh : natChars n.toNat with
      | nil => exact absurd hh (natChars_ne_nil _)
      | cons c cs =>
        have hc : c.isDigit = true := natChars_digits n.toNat c (by rw [hh]; simp)
        exact ⟨c, cs, rfl, (digit_ne_delims hc).2.2.2.2.2.2.2⟩

/-- A non-empty comma-separated scalar list parses in mode 1 up to the
closing bracket. -/
theorem parseCore_elems (vs : List SValue) :
    ∀ (f : Nat) (rest : List Char), vs ≠ [] → vs.length ≤ f →
      parseCore (f + 1) 1 (commaSep (vs.map stringifySV) ++ ']' :: rest)
        = some (.vs (vs.map SValue.toJson), rest) := by
  induction vs with
  | nil => intro f rest h _; exact absurd rfl h
  | cons v vs ih =>
    intro f rest _ hf
    match vs with
    | [] =>
      match f, hf with
      | f + 1, _ =>
        show parseCore ((f + 1) + 1) 1 (stringifySV v ++ ']' :: rest) = _
        rw [parseCore_succ]
        simp only [parseStep]
        rw [parseCore_scalar f v (']' :: rest) (headNotDigit_of_head (by decide) rest)]
        simp
    | v2 :: vs2 =>
      match f, hf with
      | f + 1, hf2 =>
        have hlen : (v2 :: vs2).length ≤ f := by
          simp only [List.length_cons] at hf2 ⊢
          omega
        show parseCore ((f + 1) + 1) 1
          ((stringifySV v ++ ',' :: commaSep ((v2 :: vs2).map stringifySV)) ++ ']' :: rest) = _
        rw [List.append_assoc, parseCore_succ]
        simp only [parseStep, List.cons_append]
        rw [parseCore_scalar f v
          (',' :: (commaSep ((v2 :: vs2).map stringifySV) ++ ']' :: rest))
          (headNotDigit_of_head (by decide) _)]
        have hih := ih f rest (by simp) hlen
        simp only [List.map_cons] at hih
        simp [hih]

/-- A serialized scalar array parses as a JSON value. -/
theorem parseCore_array (vs : List SValue) (f : Nat) (rest : List Char)
    (hf : vs.length + 1 ≤ f) :
    parseCore (f + 1) 0 (arrayChars (vs.map stringifySV) ++ rest)
      = some (.v (.arr (vs.map SValue.toJson)), rest) := by
  match vs with
  | [] =>
    show parseCore (f + 1) 0 (('[' :: commaSep [] ++ [']']) ++ rest) = _
    rw [parseCore_succ]
    simp [parseStep, commaSep]
  | v :: vs =>
    obtain ⟨c, cs, hcons, hne⟩ := stringifySV_cons v
    obtain ⟨T, hT⟩ :
        ∃ T, commaSep ((v :: vs).map stringifySV) ++ ']' :: rest = c :: T := by
      match vs with
      | [] => exact ⟨cs ++ ']' :: rest, by simp [commaSep, hcons]⟩
      | v2 :: vs2 =>
        exact ⟨cs ++ (',' :: commaSep ((v2 :: vs2).map stringifySV) ++ ']' :: rest),
          by simp [commaSep, hcons]⟩
    have hin : ('[' :: commaSep ((v :: vs).map stringifySV) ++ [']']) ++ rest
        = '[' :: c :: T := by
      show '[' :: ((commaSep ((v :: vs).map stringifySV) ++ [']']) ++ rest) = _
      rw [List.append_assoc]
      show '[' :: (commaSep ((v :: vs).map stringifySV) ++ ']' :: rest) = _
      rw [hT]
    show parseCore (f + 1) 0 (('[' :: commaSep ((v :: vs).map stringifySV) ++ [']']) ++ rest) = _
    rw [hin, parseCore_succ]
    simp only [parseStep]
    norm_num only
    rw [if_neg hne, ← hT]
    match f, hf with
    | f + 1, hf2 =>
      have hel := parseCore_elems (v :: vs) f rest (by simp)
        (by simp only [List.length_cons] at hf2 ⊢; omega)
      rw [hel]
      simp

/-- Composing `stringifySV` after `SValue.str` is `quoteString`. -/
theorem map_quoteString_eq (fields : List String) :
    fields.map quoteString = (fields.map SValue.str).map stringifySV := by
  rw [List.map_map]
  rfl

theorem map_str_toJson (fields : List String) :
    (fields.map SValue.str).map SValue.toJson = fields.map Json.str := by
  rw [List.map_map]
  rfl

/-- The serialized `{ values, sortFields }` object parses back to the
corresponding JSON object. -/
theorem parseCore_sav (values : List SValue) (fields : List String) (f : Nat) (rest : List Char)
    (hf : values.length + fields.length + 1 ≤ f) :
    parseCore (f + 4) 0 (stringifySAV ⟨values, fields⟩ ++ rest)
      = some (.v (savToJson ⟨values, fields⟩), rest) := by
  have key : stringifySAV ⟨values, fields⟩ ++ rest
      = '\x7b' :: '"' :: (escapeString "values".toList ++ '"' :: ':' ::
          (arrayChars (values.map stringifySV) ++ ',' :: '"' ::
            (escapeString "sortFields".toList ++ '"' :: ':' ::
              (arrayChars (fields.map quoteString) ++ '\x7d' :: rest)))) := by
    simp [stringifySAV, quoteString, List.append_assoc]
  rw [key]
  have s4 : ∀ (cs : List Char),
      parseCore (f + 4) 0 cs = parseStep (parseCore (f + 3)) 0 cs :=
    fun cs => parseCore_succ (f + 3) 0 cs
  have s3 : ∀ (cs : List Char),
      parseCore (f + 3) 2 cs = parseStep (parseCore (f + 2)) 2 cs :=
    fun cs => parseCore_succ (f + 2) 2 cs
  have s2 : ∀ (cs : List Char),
      parseCore (f + 2) 2 cs = parseStep (parseCore (f + 1)) 2 cs :=
    fun cs => parseCore_succ (f + 1) 2 cs
  have ha1 : ∀ (z : List Char),
      parseCore (f + 2) 0 (arrayChars (values.map stringifySV) ++ z)
        = some (.v (.arr (values.map SValue.toJson)), z) :=
    fun z => parseCore_array values (f + 1) z (by omega)
  have ha2 : ∀ (z : List Char),
      parseCore (f + 1) 0 (arrayChars (fields.map quoteString) ++ z)
        = some (.v (.arr (fields.map Json.str)), z) := by
    intro z
    rw [map_quoteString_eq]
    rw [show parseCore (f + 1) 0 (arrayChars ((fields.map SValue.str).map stringifySV) ++ z)
        = some (.v (.arr ((fields.map SValue.str).map SValue.toJson)), z) from
      parseCore_array (fields.map SValue.str) f z (by simp; omega)]
    rw [map_str_toJson]
  simp [s4, s3, s2, parseStep, parseStringBody_escape, ha1, ha2, mk_toList, savToJson]

/-! ## Fuel bound: the canonical text is long enough for `parseJson` -/

theorem stringifySV_len (v : SValue) : 1 ≤ (stringifySV v).length := by
  obtain ⟨c, cs, hcons, _⟩ := stringifySV_cons v
  rw [hcons]
  simp

theorem quoteString_len (s : String) : 1 ≤ (quoteString s).length := by
  simp [quoteString]

theorem commaSep_len (items : List (List Char)) (h : ∀ x ∈ items, 1 ≤ x.length) :
    items.length ≤ (commaSep items).length := by
  induction items with
  | nil => simp [commaSep]
  | cons x xs ih =>
    match xs with
    | [] =>
      have := h x (by simp)
      simpa [commaSep] using this
    | y :: ys =>
      have hx := h x (by simp)
      have hr := ih (fun z hz => h z (by simp [hz]))
      simp only [commaSep, List.length_append, List.length_cons] at hr ⊢
      omega

theorem arrayChars_len (items : List (List Char)) (h : ∀ x ∈ items, 1 ≤ x.length) :
    items.length + 2 ≤ (arrayChars items).length := by
  have := commaSep_len items h
  simp only [arrayChars, List.length_cons, List.length_append]
  simp at this ⊢
  omega

theorem stringifySAV_len (sav : SearchAfterValues) :
    sav.values.length + sav.sortFields.length + 4 ≤ (stringifySAV sav).length := by
  have h1 : sav.values.length + 2 ≤ (arrayChars (sav.values.map stringifySV)).length := by
    have := arrayChars_len (sav.values.map stringifySV) (by
      intro x hx
      obtain ⟨v, _, rfl⟩ := List.mem_map.mp hx
      exact stringifySV_len v)
    simpa using this
  have h2 : sav.sortFields.length + 2 ≤ (arrayChars (sav.sortFields.map quoteString)).length := by
    have := arrayChars_len (sav.sortFields.map quoteString) (by
      intro x hx
      obtain ⟨v, _, rfl⟩ := List.mem_map.mp hx
      exact quoteString_len v)
    simpa using this
  simp only [stringifySAV, List.length_cons, List.length_append]
  omega

/-- Parsing recovers the serialized cursor object. -/
theorem parseJson_sav (sav : SearchAfterValues) :
    parseJson (stringifySAV sav) = some (savToJson sav) := by
  obtain ⟨values, fields⟩ := sav
  have hlen := stringifySAV_len ⟨values, fields⟩
  obtain ⟨f, hf, hfl⟩ : ∃ f, (stringifySAV ⟨values, fields⟩).length + 1 = f + 4
      ∧ values.length + fields.length + 1 ≤ f := by
    refine ⟨(stringifySAV ⟨values, fields⟩).length - 3, by simp at hlen ⊢; omega,
      by simp at hlen ⊢; omega⟩
  unfold parseJson
  rw [hf]
  have := parseCore_sav values fields f [] hfl
  rw [List.append_nil] at this
  rw [this]

/-! ## UTF-8 round-trip -/

theorem utf8Step_encodeChar (recurse : List Nat → Option (List Char)) (c : Char) (bs : List Nat) :
    utf8DecodeStep recurse (utf8EncodeChar c ++ bs) = (recurse bs).map (fun cs => c :: cs) := by
  have hval : c.toNat < 55296 ∨ 57343 < c.toNat ∧ c.toNat < 1114112 := c.valid
  by_cases h1 : c.toNat < 128
  · rw [show utf8EncodeChar c = [c.toNat] from by unfold utf8EncodeChar; rw [if_pos h1]]
    show utf8DecodeStep recurse (c.toNat :: bs) = _
    simp only [utf8DecodeStep]
    rw [if_pos h1, ofNat_toNat_char]
  by_cases h2 : c.toNat < 2048
  · rw [show utf8EncodeChar c = [192 + c.toNat / 64, 128 + c.toNat % 64] from by
      unfold utf8EncodeChar; rw [if_neg h1, if_pos h2]]
    show utf8DecodeStep recurse ((192 + c.toNat / 64) :: ((128 + c.toNat % 64) :: bs)) = _
    simp only [utf8DecodeStep, utf8Tail2, utf8Cont, Bool.and_eq_true, decide_eq_true_eq]
    split_ifs <;> try (exfalso; omega)
    rw [show (192 + c.toNat / 64 - 192) * 64 + (128 + c.toNat % 64 - 128) = c.toNat from by
      omega]
    rw [ofNat_toNat_char]
  by_cases h3 : c.toNat < 65536
  · rw [show utf8EncodeChar c
        = [224 + c.toNat / 4096, 128 + c.toNat / 64 % 64, 128 + c.toNat % 64] from by
      unfold utf8EncodeChar; rw [if_neg h1, if_neg h2, if_pos h3]]
    show utf8DecodeStep recurse
      ((224 + c.toNat / 4096) :: ((128 + c.toNat / 64 % 64) :: ((128 + c.toNat % 64) :: bs))) = _
    simp only [utf8DecodeStep, utf8Tail3, utf8Cont, Bool.and_eq_true, decide_eq_true_eq]
    split_ifs <;> try (exfalso; omega)
    rw [show (224 + c.toNat / 4096 - 224) * 4096 + (128 + c.toNat / 64 % 64 - 128) * 64
        + (128 + c.toNat % 64 - 128) = c.toNat from by omega]
    rw [ofNat_toNat_char]
  · rw [show utf8EncodeChar c = [240 + c.toNat / 262144, 128 + c.toNat / 4096 % 64,
        128 + c.toNat / 64 % 64, 128 + c.toNat % 64] from by
      unfold utf8EncodeChar; rw [if_neg h1, if_neg h2, if_neg h3]]
    show utf8DecodeStep recurse ((240 + c.toNat / 262144) :: ((128 + c.toNat / 4096 % 64)
      :: ((128 + c.toNat / 64 % 64) :: ((128 + c.toNat % 64) :: bs)))) = _
    simp only [utf8DecodeStep, utf8Tail4, utf8Cont, Bool.and_eq_true, decide_eq_true_eq]
    split_ifs <;> try (exfalso; omega)
    rw [show (240 + c.toNat / 262144 - 240) * 262144 + (128 + c.toNat / 4096 % 64 - 128) * 4096
        + (128 + c.toNat / 64 % 64 - 128) * 64 + (128 + c.toNat % 64 - 128) = c.toNat from by
      omega]
    rw [ofNat_toNat_char]

theorem utf8EncodeChar_len (c : Char) : 1 ≤ (utf8EncodeChar c).length := by
  simp only [utf8EncodeChar]
  split_ifs <;> simp

theorem utf8Go_encode (cs : List Char) :
    ∀ f, (utf8Encode cs).length ≤ f → utf8DecodeGo f (utf8Encode cs) = some cs := by
  induction cs with
  | nil =>
    intro f _
    match f with
    | 0 => rfl
    | f + 1 => rfl
  | cons c cs ih =>
    intro f hf
    have hpos := utf8EncodeChar_len c
    have hlen : (utf8Encode (c :: cs)).length
        = (utf8EncodeChar c).length + (utf8Encode cs).length := by
      show (utf8EncodeChar c ++ utf8Encode cs).length = _
      simp
    match f with
    | 0 => omega
    | f + 1 =>
      show utf8DecodeGo (f + 1) (utf8EncodeChar c ++ utf8Encode cs) = _
      rw [show utf8DecodeGo (f + 1) (utf8EncodeChar c ++ utf8Encode cs)
          = utf8DecodeStep (utf8DecodeGo f) (utf8EncodeChar c ++ utf8Encode cs) from by
        simp [utf8DecodeGo]]
      rw [utf8Step_encodeChar, ih f (by omega)]
      rfl

theorem utf8Decode_encode (cs : List Char) : utf8Decode (utf8Encode cs) = some cs :=
  utf8Go_encode cs (utf8Encode cs).length le_rfl

theorem utf8Encode_lt (cs : List Char) : ∀ b ∈ utf8Encode cs, b < 256 := by
  induction cs with
  | nil => intro b hb; simp [utf8Encode] at hb
  | cons c cs ih =>
    intro b hb
    rw [show utf8Encode (c :: cs) = utf8EncodeChar c ++ utf8Encode cs from rfl,
      List.mem_append] at hb
    rcases hb with hb | hb
    · have hlt : c.toNat < 1114112 := char_toNat_lt c
      simp only [utf8EncodeChar] at hb
      split_ifs at hb <;> fin_cases hb <;> omega
    · exact ih b hb

/-! ## Base64 round-trip -/

theorem b64Val_b64Char : ∀ n < 64, b64Val (b64Char n) = some n := by decide

theorem b64Char_ne_pad : ∀ n < 64, b64Char n ≠ '=' := by decide

theorem b64Decode_encode : ∀ (bs : List Nat), (∀ b ∈ bs, b < 256) →
    b64Decode (b64Encode bs) = some bs
  | [], _ => rfl
  | [b1], h => by
    have hb1 : b1 < 256 := h b1 (by simp)
    show b64Decode [b64Char (b1 / 4), b64Char (b1 % 4 * 16), '=', '='] = some [b1]
    simp only [b64Decode]
    rw [if_pos (by simp),
      b64Val_b64Char _ (by omega), b64Val_b64Char _ (by omega)]
    simp only [Option.some.injEq, List.cons.injEq, and_true]
    omega
  | [b1, b2], h => by
    have hb1 : b1 < 256 := h b1 (by simp)
    have hb2 : b2 < 256 := h b2 (by simp)
    show b64Decode [b64Char (b1 / 4), b64Char (b1 % 4 * 16 + b2 / 16),
      b64Char (b2 % 16 * 4), '='] = some [b1, b2]
    simp only [b64Decode]
    rw [if_neg (fun hc => b64Char_ne_pad _ (by omega) hc.1), if_pos (by simp),
      b64Val_b64Char _ (by omega), b64Val_b64Char _ (by omega), b64Val_b64Char _ (by omega)]
    simp only [Option.some.injEq, List.cons.injEq, and_true]
    constructor
    · omega
    · omega
  | b1 :: b2 :: b3 :: rest, h => by
    have hb1 : b1 < 256 := h b1 (by simp)
    have hb2 : b2 < 256 := h b2 (by simp)
    have hb3 : b3 < 256 := h b3 (by simp)
    have hrest := b64Decode_encode rest (fun b hb => h b (by simp [hb]))
    show b64Decode (b64Char (b1 / 4) :: b64Char (b1 % 4 * 16 + b2 / 16)
      :: b64Char (b2 % 16 * 4 + b3 / 64) :: b64Char (b3 % 64) :: b64Encode rest)
      = some (b1 :: b2 :: b3 :: rest)
    simp only [b64Decode]
    rw [if_neg (fun hc => b64Char_ne_pad _ (by omega) hc.1),
      if_neg (fun hc => b64Char_ne_pad _ (by omega) hc.1),
      b64Val_b64Char _ (by omega), b64Val_b64Char _ (by omega),
      b64Val_b64Char _ (by omega), b64Val_b64Char _ (by omega), hrest]
    simp only [Option.some.injEq, List.cons.injEq, and_true]
    refine ⟨by omega, by omega, by omega⟩

/-! ## The cursor codec round-trips -/

theorem decodeCursor_encodeCursor (sav : SearchAfterValues) :
    decodeCursor (encodeCursor sav) = .ok (savToJson sav) := by
  unfold decodeCursor encodeCursor
  rw [show (String.mk (b64Encode (utf8Encode (stringifySAV sav)))).toList
      = b64Encode (utf8Encode (stringifySAV sav)) from rfl]
  rw [b64Decode_encode _ (utf8Encode_lt _)]
  show (match utf8Decode (utf8Encode (stringifySAV sav)) with
    | none => Except.error "Invalid cursor format"
    | some cs =>
      match parseJson cs with
      | none => Except.error "Invalid cursor format"
      | some j => Except.ok j) = Except.ok (savToJson sav)
  rw [utf8Decode_encode]
  show (match parseJson (stringifySAV sav) with
    | none => Except.error "Invalid cursor format"
    | some j => Except.ok j) = Except.ok (savToJson sav)
  rw [parseJson_sav]

theorem readScalar_toJson (v : SValue) : readScalar v.toJson = some v := by
  cases v <;> rfl

theorem readScalars_toJson (vs : List SValue) :
    readScalars (vs.map SValue.toJson) = some vs := by
  induction vs with
  | nil => rfl
  | cons v vs ih => simp [readScalars, readScalar_toJson, ih]

theorem readStrings_str (fs : List String) :
    readStrings (fs.map Json.str) = some fs := by
  induction fs with
  | nil => rfl
  | cons v fs ih => simp [readStrings, readString, ih]

theorem jsGet_sav_values (sav : SearchAfterValues) :
    jsGet (savToJson sav) "values" = some (.arr (sav.values.map SValue.toJson)) := by
  simp [jsGet, savToJson, List.find?]

theorem jsGet_sav_sortFields (sav : SearchAfterValues) :
    jsGet (savToJson sav) "sortFields" = some (.arr (sav.sortFields.map Json.str)) := by
  simp [jsGet, savToJson, List.find?]

/-- Reading the pair back off the decoded cursor object recovers it
exactly. -/
theorem readSAV_savToJson (sav : SearchAfterValues) : readSAV (savToJson sav) = some sav := by
  unfold readSAV
  rw [jsGet_sav_values, jsGet_sav_sortFields]
  show (match readScalars (sav.values.map SValue.toJson),
      readStrings (sav.sortFields.map Json.str) with
    | some values, some fields => some (⟨values, fields⟩ : SearchAfterValues)
    | _, _ => none) = some sav
  rw [readScalars_toJson, readStrings_str]

/-! ## Page orchestration lemmas -/

theorem cursorSearch_ok (idxPre : String) (engine : SearchRequest → Except EngineError ESResponse)
    (input : CursorSearchInput) (sa : Option Json) (resp : ESResponse)
    (hsa : searchAfterOf input = .ok sa)
    (heng : engine (buildRequest idxPre input sa) = .ok resp) :
    cursorSearch idxPre engine input = .ok (pageFromResponse input resp) := by
  unfold cursorSearch
  rw [hsa]
  show (match engine (buildRequest idxPre input sa) with
    | Except.error e => Except.error (JsError.engineError e)
    | Except.ok resp => Except.ok (pageFromResponse input resp)) = _
  rw [heng]

theorem cursorSearch_engineError (idxPre : String)
    (engine : SearchRequest → Except EngineError ESResponse)
    (input : CursorSearchInput) (sa : Option Json) (e : EngineError)
    (hsa : searchAfterOf input = .ok sa)
    (heng : engine (buildRequest idxPre input sa) = .error e) :
    cursorSearch idxPre engine input = .error (.engineError e) := by
  unfold cursorSearch
  rw [hsa]
  show (match engine (buildRequest idxPre input sa) with
    | Except.error e => Except.error (JsError.engineError e)
    | Except.ok resp => Except.ok (pageFromResponse input resp)) = _
  rw [heng]

theorem cursorSearchRequests_ok (idxPre : String) (input : CursorSearchInput) (sa : Option Json)
    (hsa : searchAfterOf input = .ok sa) :
    cursorSearchRequests idxPre input = [buildRequest idxPre input sa] := by
  unfold cursorSearchRequests
  rw [hsa]

theorem effectiveTake_pos (t : Option Int)
    (h : t = none ∨ ∃ n, t = some n ∧ 0 ≤ n) : 1 ≤ effectiveTake t := by
  rcases h with rfl | ⟨n, rfl, hn⟩
  · decide
  · show 1 ≤ min (if n = 0 then 100 else n) 1000
    by_cases h0 : n = 0
    · rw [if_pos h0]; decide
    · rw [if_neg h0]
      rcases le_total n 1000 with hle | hle
      · rw [min_eq_left hle]; omega
      · rw [min_eq_right hle]; omega

theorem pageFromResponse_hasMore (input : CursorSearchInput) (resp : ESResponse) :
    (pageFromResponse input resp).hasMore
      = decide (effectiveTake input.take < (resp.hits.length : Int)) := rfl

theorem pageFromResponse_totalItems (input : CursorSearchInput) (resp : ESResponse) :
    (pageFromResponse input resp).totalItems = totalOf resp.total := rfl

theorem pageFromResponse_items (input : CursorSearchInput) (resp : ESResponse) :
    (pageFromResponse input resp).items
      = (if decide (effectiveTake input.take < (resp.hits.length : Int))
          then jsSliceTo resp.hits (effectiveTake input.take) else resp.hits).map mapHit := rfl

theorem pageFromResponse_nextCursor (input : CursorSearchInput) (resp : ESResponse) :
    (pageFromResponse input resp).nextCursor
      = if decide (effectiveTake input.take < (resp.hits.length : Int))
        then lastSortCursor (buildSort input.sort)
          (jsSliceTo resp.hits (effectiveTake input.take))
        else none := by
  show (if decide (effectiveTake input.take < (resp.hits.length : Int))
      then lastSortCursor (buildSort input.sort)
        (if decide (effectiveTake input.take < (resp.hits.length : Int))
          then jsSliceTo resp.hits (effectiveTake input.take) else resp.hits)
      else none) = _
  split <;> simp_all

theorem jsSliceTo_nonneg {α : Type} (l : List α) (e : Int) (he : 0 ≤ e) :
    jsSliceTo l e = l.take e.toNat := by
  unfold jsSliceTo
  rw [if_neg (by omega)]

/-- The retained page never exceeds the effective take (for non-negative
takes, given an engine honouring the `size` cap). -/
theorem pageItems_le (input : CursorSearchInput) (resp : ESResponse)
    (htake : 0 ≤ effectiveTake input.take)
    (hhits : (resp.hits.length : Int) ≤ effectiveTake input.take + 1) :
    ((pageFromResponse input resp).items.length : Int) ≤ effectiveTake input.take := by
  rw [pageFromResponse_items]
  rw [List.length_map]
  split
  · rename_i h
    rw [jsSliceTo_nonneg _ _ htake, List.length_take]
    simp only [decide_eq_true_eq] at h
    have : (effectiveTake input.take).toNat ≤ effectiveTake input.take := by omega
    push_cast
    omega
  · rename_i h
    simp only [decide_eq_true_eq] at h
    omega

/-! # Claim theorems -/

/-- C5: for every tuple of scalar sort values (numbers, strings, booleans,
null) and every list of sort field names, decoding the encoded cursor
yields exactly the serialized `{ values, sortFields }` object, and reading
the pair back recovers `(values, sortFields)` exactly — the codec
round-trips. -/
theorem c5_cursor_roundtrip (values : List SValue) (sortFields : List String) :
    decodeCursor (encodeCursor ⟨values, sortFields⟩)
      = Except.ok (savToJson ⟨values, sortFields⟩)
    ∧ readSAV (savToJson ⟨values, sortFields⟩) = some ⟨values, sortFields⟩ :=
  ⟨decodeCursor_encodeCursor _, readSAV_savToJson _⟩

/-- C9: a request whose `take` is absent or `0` gets the default effective
page size 100 (`input.take || 100`), and the issued query asks for 101
documents — a caller cannot obtain an intentionally empty page with
`take: 0`. -/
theorem c9_take_default (input : CursorSearchInput) (sa : Option Json) (idxPre : String)
    (h : input.take = none ∨ input.take = some 0) :
    effectiveTake input.take = 100 ∧ (buildRequest idxPre input sa).size = 101 := by
  have h100 : effectiveTake input.take = 100 := by
    rcases h with h | h <;> rw [h] <;> decide
  exact ⟨h100, by simp [buildRequest, h100]⟩

theorem c9_take_default_witness :
    effectiveTake emptyInput.take = 100 ∧ (buildRequest "gbros" emptyInput none).size = 101 :=
  c9_take_default emptyInput none "gbros" (Or.inl rfl)

/-- C6: a requested page size above the hard-coded maximum 1000 is
silently clamped to 1000: the effective take is 1000, the call still
succeeds (no error), and the returned page holds at most 1000 items
(given an engine honouring the `size` cap). -/
theorem c6_take_clamped (idxPre : String)
    (engine : SearchRequest → Except EngineError ESResponse) (input : CursorSearchInput)
    (t : Int) (sa : Option Json) (resp : ESResponse)
    (ht : input.take = some t) (hgt : 1000 < t)
    (hsa : searchAfterOf input = .ok sa)
    (heng : engine (buildRequest idxPre input sa) = .ok resp)
    (hhits : (resp.hits.length : Int) ≤ effectiveTake input.take + 1) :
    effectiveTake input.take = 1000
    ∧ cursorSearch idxPre engine input = .ok (pageFromResponse input resp)
    ∧ ((pageFromResponse input resp).items.length : Int) ≤ 1000 := by
  have h1000 : effectiveTake input.take = 1000 := by
    rw [ht]
    show min (if t = 0 then 100 else t) 1000 = 1000
    rw [if_neg (by omega), min_eq_right (by omega)]
  refine ⟨h1000, cursorSearch_ok idxPre engine input sa resp hsa heng, ?_⟩
  have := pageItems_le input resp (by omega) hhits
  omega

theorem c6_take_clamped_witness :
    effectiveTake (CursorSearchInput.mk none none none none none none (some 5000) none none).take
        = 1000
    ∧ cursorSearch "gbros" emptyEngine
        ⟨none, none, none, none, none, none, some 5000, none, none⟩
        = .ok (pageFromResponse ⟨none, none, none, none, none, none, some 5000, none, none⟩
            ⟨[], .num 0⟩)
    ∧ ((pageFromResponse ⟨none, none, none, none, none, none, some 5000, none, none⟩
        ⟨[], .num 0⟩).items.length : Int) ≤ 1000 :=
  c6_take_clamped "gbros" emptyEngine _ 5000 none ⟨[], .num 0⟩ rfl (by decide) rfl rfl
    (by decide)

/-- C4 counterexample: for the concrete caller sort `{ name: ASC }`,
`buildSort` does not extend the requested entries by exactly one
tiebreaker — it appends two (`productId asc` and `productVariantId asc`),
so the composed sort has three entries, not two. -/
theorem c4_counterexample :
    ¬ ∃ tb : SortEntry, buildSort (some sortNameAsc)
        = requestedSortEntries (some sortNameAsc) ++ [tb] := by
  rintro ⟨tb, h⟩
  have h3 : (buildSort (some sortNameAsc)).length = 3 := rfl
  have h2 : (requestedSortEntries (some sortNameAsc) ++ [tb]).length = 2 := by
    simp [requestedSortEntries, sortNameAsc]
  rw [h] at h3
  omega

/-- C4 amended: `buildSort` preserves the caller-requested entries
(fields and lower-cased directions, name before price) verbatim as a
prefix, and appends exactly two fixed tiebreakers — `productId` and then
`productVariantId`, both ascending regardless of the requested
directions; the requested entries never contain `productId`, so the
`productId` guard never fires for caller-expressible input. -/
theorem c4_two_tiebreakers (si : Option SortInput) :
    buildSort si = requestedSortEntries si
        ++ [⟨"productId", "asc"⟩, ⟨"productVariantId", "asc"⟩]
    ∧ ∀ e ∈ requestedSortEntries si, e.field ≠ "productId" := by
  have hany : (requestedSortEntries si).any (fun s => s.field = "productId") = false := by
    rcases si with _ | ⟨n, p, cA⟩
    · rfl
    · rcases n with _ | n <;> rcases p with _ | p <;>
        simp [requestedSortEntries]
  constructor
  · simp only [buildSort]
    rw [hany]
    simp
  · intro e he
    have := List.any_eq_false.mp hany e he
    simpa using this

theorem pageNextCursor_of_not_hasMore (input : CursorSearchInput) (resp : ESResponse)
    (h : (pageFromResponse input resp).hasMore = false) :
    (pageFromResponse input resp).nextCursor = none := by
  rw [pageFromResponse_nextCursor]
  rw [pageFromResponse_hasMore] at h
  simp [h]

theorem pageNextCursor_of_hasMore (input : CursorSearchInput) (resp : ESResponse)
    (htake : 1 ≤ effectiveTake input.take)
    (h : (pageFromResponse input resp).hasMore = true) :
    ∃ last, (resp.hits.take (effectiveTake input.take).toNat).getLast? = some last
      ∧ (pageFromResponse input resp).nextCursor
        = some (encodeCursor ⟨last.sort.getD [],
            (buildSort input.sort).map SortEntry.field⟩) := by
  have h' := h
  rw [pageFromResponse_hasMore] at h'
  simp only [decide_eq_true_eq] at h'
  have hslice : jsSliceTo resp.hits (effectiveTake input.take)
      = resp.hits.take (effectiveTake input.take).toNat := jsSliceTo_nonneg _ _ (by omega)
  cases hL : (resp.hits.take (effectiveTake input.take).toNat).getLast? with
  | none =>
    exfalso
    have hnil := List.getLast?_eq_none_iff.mp hL
    have := congrArg List.length hnil
    rw [List.length_take] at this
    simp only [List.length_nil] at this
    omega
  | some last =>
    refine ⟨last, rfl, ?_⟩
    rw [pageFromResponse_nextCursor, pageFromResponse_hasMore] at *
    rw [if_pos h, hslice]
    simp [lastSortCursor, hL]

/-- C3 counterexample: with the unvalidated page size `-1` and an engine
returning no hits (`size: 0` is a valid request), the page reports
`hasMore = true` yet carries no `nextCursor` — "nextCursor present iff
hasMore" fails as stated. -/
theorem c3_counterexample :
    cursorSearch "gbros" emptyEngine inputTakeNeg
      = .ok ⟨[], 0, true, none, none⟩ := rfl

/-- C3 amended: `nextCursor` is present exactly when `hasMore` holds
*and* at least one document was retained; for every request whose `take`
is absent or non-negative (so the effective take is at least 1) the
original biconditional holds, and a page with `hasMore = false` never
carries a cursor. -/
theorem c3_nextCursor_iff_hasMore (idxPre : String)
    (engine : SearchRequest → Except EngineError ESResponse) (input : CursorSearchInput)
    (sa : Option Json) (resp : ESResponse)
    (htake : input.take = none ∨ ∃ n, input.take = some n ∧ 0 ≤ n)
    (hsa : searchAfterOf input = .ok sa)
    (heng : engine (buildRequest idxPre input sa) = .ok resp) :
    cursorSearch idxPre engine input = .ok (pageFromResponse input resp)
    ∧ (pageFromResponse input resp).nextCursor.isSome = (pageFromResponse input resp).hasMore
    ∧ ((pageFromResponse input resp).hasMore = false →
        (pageFromResponse input resp).nextCursor = none) := by
  refine ⟨cursorSearch_ok idxPre engine input sa resp hsa heng, ?_, ?_⟩
  · cases hm : (pageFromResponse input resp).hasMore with
    | false => rw [pageNextCursor_of_not_hasMore input resp hm]; rfl
    | true =>
      obtain ⟨last, _, hnc⟩ :=
        pageNextCursor_of_hasMore input resp (effectiveTake_pos input.take htake) hm
      rw [hnc]
      rfl
  · exact pageNextCursor_of_not_hasMore input resp

theorem c3_nextCursor_iff_hasMore_witness :
    cursorSearch "gbros" emptyEngine emptyInput
      = .ok (pageFromResponse emptyInput ⟨[], .num 0⟩)
    ∧ (pageFromResponse emptyInput ⟨[], .num 0⟩).nextCursor.isSome
        = (pageFromResponse emptyInput ⟨[], .num 0⟩).hasMore
    ∧ ((pageFromResponse emptyInput ⟨[], .num 0⟩).hasMore = false →
        (pageFromResponse emptyInput ⟨[], .num 0⟩).nextCursor = none) :=
  c3_nextCursor_iff_hasMore "gbros" emptyEngine emptyInput none ⟨[], .num 0⟩
    (Or.inl rfl) rfl rfl

/-- C1: one page fetch issues exactly one index query, with
`size = effectiveTake + 1`, ordered by the composed sort and resumed from
the cursor values; `hasMore` holds iff the engine returned
`effectiveTake + 1` documents (engine honouring the size cap); at most
`effectiveTake` documents are retained; and when `hasMore` holds the
extra document is discarded and `nextCursor` is the encoding of the last
retained document's engine sort values. -/
theorem c1_overfetch_trim (idxPre : String)
    (engine : SearchRequest → Except EngineError ESResponse) (input : CursorSearchInput)
    (sa : Option Json) (resp : ESResponse)
    (htake : input.take = none ∨ ∃ n, input.take = some n ∧ 0 ≤ n)
    (hsa : searchAfterOf input = .ok sa)
    (heng : engine (buildRequest idxPre input sa) = .ok resp)
    (hhits : (resp.hits.length : Int) ≤ effectiveTake input.take + 1) :
    cursorSearchRequests idxPre input = [buildRequest idxPre input sa]
    ∧ (buildRequest idxPre input sa).size = effectiveTake input.take + 1
    ∧ (buildRequest idxPre input sa).sort = buildSort input.sort
    ∧ (buildRequest idxPre input sa).searchAfter = jsGetValues sa
    ∧ cursorSearch idxPre engine input = .ok (pageFromResponse input resp)
    ∧ ((pageFromResponse input resp).hasMore = true
        ↔ (resp.hits.length : Int) = effectiveTake input.take + 1)
    ∧ ((pageFromResponse input resp).items.length : Int) ≤ effectiveTake input.take
    ∧ ((pageFromResponse input resp).hasMore = true →
        (pageFromResponse input resp).items
            = (resp.hits.take (effectiveTake input.take).toNat).map mapHit
        ∧ ∃ last, (resp.hits.take (effectiveTake input.take).toNat).getLast? = some last
            ∧ (pageFromResponse input resp).nextCursor
              = some (encodeCursor ⟨last.sort.getD [],
                  (buildSort input.sort).map SortEntry.field⟩)) := by
  have hpos := effectiveTake_pos input.take htake
  refine ⟨cursorSearchRequests_ok idxPre input sa hsa, rfl, rfl, rfl,
    cursorSearch_ok idxPre engine input sa resp hsa heng, ?_, pageItems_le input resp
      (by omega) hhits, ?_⟩
  · rw [pageFromResponse_hasMore]
    simp only [decide_eq_true_eq]
    omega
  · intro hm
    refine ⟨?_, pageNextCursor_of_hasMore input resp hpos hm⟩
    rw [pageFromResponse_items]
    rw [pageFromResponse_hasMore] at hm
    rw [hm]
    rw [jsSliceTo_nonneg _ _ (by omega)]
    simp

theorem c1_overfetch_trim_witness :
    cursorSearchRequests "gbros" emptyInput = [buildRequest "gbros" emptyInput none]
    ∧ (buildRequest "gbros" emptyInput none).size = effectiveTake emptyInput.take + 1
    ∧ (buildRequest "gbros" emptyInput none).sort = buildSort emptyInput.sort
    ∧ (buildRequest "gbros" emptyInput none).searchAfter = jsGetValues none
    ∧ cursorSearch "gbros" emptyEngine emptyInput
        = .ok (pageFromResponse emptyInput ⟨[], .num 0⟩)
    ∧ ((pageFromResponse emptyInput ⟨[], .num 0⟩).hasMore = true
        ↔ ((ESResponse.mk [] (.num 0)).hits.length : Int) = effectiveTake emptyInput.take + 1)
    ∧ ((pageFromResponse emptyInput ⟨[], .num 0⟩).items.length : Int)
        ≤ effectiveTake emptyInput.take
    ∧ ((pageFromResponse emptyInput ⟨[], .num 0⟩).hasMore = true →
        (pageFromResponse emptyInput ⟨[], .num 0⟩).items
            = ((ESResponse.mk [] (.num 0)).hits.take
                (effectiveTake emptyInput.take).toNat).map mapHit
        ∧ ∃ last, ((ESResponse.mk [] (.num 0)).hits.take
              (effectiveTake emptyInput.take).toNat).getLast? = some last
            ∧ (pageFromResponse emptyInput ⟨[], .num 0⟩).nextCursor
              = some (encodeCursor ⟨last.sort.getD [],
                  (buildSort emptyInput.sort).map SortEntry.field⟩)) :=
  c1_overfetch_trim "gbros" emptyEngine emptyInput none ⟨[], .num 0⟩
    (Or.inl rfl) rfl rfl (by decide)

/-- C10: a cursor whose token decodes to valid JSON without a `values`
property (here quantified over decodable tokens) raises no error: the
decoded value is accepted, `searchAfter?.values` is `undefined`, and the
single query is issued with no resume marker — a silent first-page
request. -/
theorem c10_cursor_without_values (idxPre : String)
    (engine : SearchRequest → Except EngineError ESResponse) (input : CursorSearchInput)
    (c : String) (j : Json) (resp : ESResponse)
    (hc : input.cursor = some c) (hcne : c ≠ "")
    (hdec : decodeCursor c = .ok j)
    (hnoval : jsGet j "values" = none)
    (heng : engine (buildRequest idxPre input (some j)) = .ok resp) :
    searchAfterOf input = .ok (some j)
    ∧ (buildRequest idxPre input (some j)).searchAfter = none
    ∧ cursorSearch idxPre engine input = .ok (pageFromResponse input resp)
    ∧ cursorSearchRequests idxPre input = [buildRequest idxPre input (some j)] := by
  have hsa : searchAfterOf input = .ok (some j) := by
    unfold searchAfterOf
    rw [hc]
    show (if c = "" then Except.ok none
      else match decodeCursor c with
        | Except.ok j => Except.ok (some j)
        | Except.error msg => Except.error (JsError.pluginError msg)) = _
    rw [if_neg hcne]
    show (match decodeCursor c with
      | Except.ok j => Except.ok (some j)
      | Except.error msg => Except.error (JsError.pluginError msg)) = _
    rw [hdec]
  refine ⟨hsa, ?_, cursorSearch_ok idxPre engine input (some j) resp hsa heng,
    cursorSearchRequests_ok idxPre input (some j) hsa⟩
  show jsGetValues (some j) = none
  simp [jsGetValues, hnoval]

theorem c10_cursor_without_values_witness :
    searchAfterOf inputC10 = .ok (some (.num 42))
    ∧ (buildRequest "gbros" inputC10 (some (.num 42))).searchAfter = none
    ∧ cursorSearch "gbros" emptyEngine inputC10
        = .ok (pageFromResponse inputC10 ⟨[], .num 0⟩)
    ∧ cursorSearchRequests "gbros" inputC10 = [buildRequest "gbros" inputC10 (some (.num 42))] :=
  c10_cursor_without_values "gbros" emptyEngine inputC10 "NDI=" (.num 42) ⟨[], .num 0⟩
    rfl (by decide) rfl rfl rfl

theorem b64Encode_cons_ne_nil (b : Nat) (bs : List Nat) : b64Encode (b :: bs) ≠ [] := by
  match bs with
  | [] => simp [b64Encode]
  | [b2] => simp [b64Encode]
  | b2 :: b3 :: r => simp [b64Encode]

theorem encodeCursor_ne_empty (sav : SearchAfterValues) : encodeCursor sav ≠ "" := by
  unfold encodeCursor
  intro h
  have hl : b64Encode (utf8Encode (stringifySAV sav)) = [] := congrArg String.data h
  have hsh : utf8Encode (stringifySAV sav)
      = 123 :: utf8Encode ((quoteString "values"
          ++ ':' :: arrayChars (sav.values.map stringifySV)
          ++ ',' :: quoteString "sortFields"
          ++ ':' :: arrayChars (sav.sortFields.map quoteString)) ++ ['\x7d']) := rfl
  rw [hsh] at hl
  exact b64Encode_cons_ne_nil _ _ hl

/-- Every failure of `decodeCursor` is the single `Invalid cursor format`
error — there is no separate incompatibility condition. -/
theorem decodeCursor_error_unique (c : String) (e : String)
    (h : decodeCursor c = .error e) : e = "Invalid cursor format" := by
  unfold decodeCursor at h
  split at h
  · injection h with hh
    exact hh.symm
  · split at h
    · injection h with hh
      exact hh.symm
    · split at h
      · injection h with hh
        exact hh.symm
      · cases h

/-- A cursor produced by `encodeCursor` always decodes: `searchAfterOf`
accepts it whatever the current request's sort is. -/
theorem searchAfterOf_encoded (input : CursorSearchInput) (sav : SearchAfterValues)
    (hc : input.cursor = some (encodeCursor sav)) :
    searchAfterOf input = .ok (some (savToJson sav)) := by
  unfold searchAfterOf
  rw [hc]
  show (if encodeCursor sav = "" then Except.ok none
    else match decodeCursor (encodeCursor sav) with
      | Except.ok j => Except.ok (some j)
      | Except.error msg => Except.error (JsError.pluginError msg)) = _
  rw [if_neg (encodeCursor_ne_empty sav)]
  show (match decodeCursor (encodeCursor sav) with
    | Except.ok j => Except.ok (some j)
    | Except.error msg => Except.error (JsError.pluginError msg)) = _
  rw [decodeCursor_encodeCursor]

/-- C2 counterexample: the cursor encoded under the price-first sort
specification (`savA`, three fields) replayed against a request sorting
by name (`inputB`) decodes successfully, the sort field signatures
disagree, the request proceeds without any error, and the stale sort
values are forwarded to the engine as the resume marker — no
`IncompatibleCursor` condition exists. -/
theorem c2_counterexample :
    decodeCursor (encodeCursor savA) = .ok (savToJson savA)
    ∧ (buildSort inputB.sort).map SortEntry.field ≠ savA.sortFields
    ∧ cursorSearch "gbros" emptyEngine inputB
        = .ok (pageFromResponse inputB ⟨[], .num 0⟩)
    ∧ (buildRequest "gbros" inputB (some (savToJson savA))).searchAfter
        = some (.arr (savA.values.map SValue.toJson)) := by
  have hsa : searchAfterOf inputB = .ok (some (savToJson savA)) :=
    searchAfterOf_encoded inputB savA rfl
  refine ⟨decodeCursor_encodeCursor savA, by decide,
    cursorSearch_ok "gbros" emptyEngine inputB (some (savToJson savA)) ⟨[], .num 0⟩ hsa rfl,
    ?_⟩
  show jsGetValues (some (savToJson savA)) = _
  simp [jsGetValues, jsGet_sav_values]

/-- C2 amended: decoding fails only with the single
`Invalid cursor format` error (malformed token); no sort-compatibility
check exists — any encoded cursor decodes successfully and its stored
sort values are forwarded to the engine unchanged, whatever the current
request's sort specification is. -/
theorem c2_no_compat_check (c : String) (e : String) (sav : SearchAfterValues)
    (input : CursorSearchInput) (idxPre : String)
    (hc : input.cursor = some (encodeCursor sav)) :
    (decodeCursor c = .error e → e = "Invalid cursor format")
    ∧ searchAfterOf input = .ok (some (savToJson sav))
    ∧ (buildRequest idxPre input (some (savToJson sav))).searchAfter
        = some (.arr (sav.values.map SValue.toJson)) := by
  have hsa : searchAfterOf input = .ok (some (savToJson sav)) :=
    searchAfterOf_encoded input sav hc
  refine ⟨decodeCursor_error_unique c e, hsa, ?_⟩
  show jsGetValues (some (savToJson sav)) = _
  simp [jsGetValues, jsGet_sav_values]

theorem c2_no_compat_check_witness :
    (decodeCursor "%%" = .error "x" → "x" = "Invalid cursor format")
    ∧ searchAfterOf inputB = .ok (some (savToJson savA))
    ∧ (buildRequest "gbros" inputB (some (savToJson savA))).searchAfter
        = some (.arr (savA.values.map SValue.toJson)) :=
  c2_no_compat_check "%%" "x" savA inputB "gbros" rfl

/-- C8 counterexample: with an engine failing with a `TimeoutError`, the
call propagates the raw engine error rethrown unchanged — there is no
plugin-raised `SearchUnavailable` condition wrapping it. -/
theorem c8_counterexample :
    cursorSearch "gbros" (failingEngine teErr) emptyInput
        = .error (.engineError teErr)
    ∧ isPluginRaised (.engineError teErr) = false
    ∧ teErr.message = "Request timed out" :=
  ⟨rfl, rfl, rfl⟩

/-- C8 amended: any engine-level failure is logged and rethrown unchanged
— the caller receives the very engine error (name and message preserved
verbatim), not a plugin-raised typed condition, and the executor performs
no retry (exactly one query is issued). -/
theorem c8_engine_error_rethrown (idxPre : String)
    (engine : SearchRequest → Except EngineError ESResponse) (input : CursorSearchInput)
    (sa : Option Json) (e : EngineError)
    (hsa : searchAfterOf input = .ok sa)
    (heng : engine (buildRequest idxPre input sa) = .error e) :
    cursorSearch idxPre engine input = .error (.engineError e)
    ∧ isPluginRaised (.engineError e) = false
    ∧ cursorSearchRequests idxPre input = [buildRequest idxPre input sa] :=
  ⟨cursorSearch_engineError idxPre engine input sa e hsa heng, rfl,
    cursorSearchRequests_ok idxPre input sa hsa⟩

theorem c8_engine_error_rethrown_witness :
    cursorSearch "gbros" (failingEngine teErr) emptyInput = .error (.engineError teErr)
    ∧ isPluginRaised (.engineError teErr) = false
    ∧ cursorSearchRequests "gbros" emptyInput = [buildRequest "gbros" emptyInput none] :=
  c8_engine_error_rethrown "gbros" (failingEngine teErr) emptyInput none teErr rfl rfl

/-! ## Query semantics (C7) -/

theorem matches_matchAll_iff (tm : String → Doc → Bool) (d : Doc) :
    Matches tm d .matchAll ↔ True :=
  iff_true_intro .matchAll

theorem matches_multiMatch_iff (tm : String → Doc → Bool) (d : Doc) (t : String)
    (fs : List String) (ty fz : String) :
    Matches tm d (.multiMatch t fs ty fz) ↔ tm t d = true := by
  constructor
  · intro h
    cases h with
    | multiMatch h => exact h
  · exact fun h => .multiMatch h

theorem matches_termQ_iff (tm : String → Doc → Bool) (d : Doc) (f v : String) :
    Matches tm d (.termQ f v) ↔ v ∈ docFieldVals d f := by
  constructor
  · intro h
    cases h with
    | termQ h => exact h
  · exact fun h => .termQ h

theorem matches_bool_noshould_iff (tm : String → Doc → Bool) (d : Doc)
    (M F : List ESQuery) :
    Matches tm d (.boolQ M [] F)
      ↔ (∀ q ∈ M, Matches tm d q) ∧ (∀ q ∈ F, Matches tm d q) := by
  constructor
  · intro h
    cases h with
    | boolAll _ hm hf => exact ⟨hm, hf⟩
    | boolShould hq _ => exact absurd hq (List.not_mem_nil _)
  · intro ⟨hm, hf⟩
    exact .boolAll (Or.inr (Or.inr rfl)) hm hf

theorem matches_bool_shouldOnly_iff (tm : String → Doc → Bool) (d : Doc)
    (S : List ESQuery) :
    Matches tm d (.boolQ [] S []) ↔ (S = [] ∨ ∃ q ∈ S, Matches tm d q) := by
  constructor
  · intro h
    cases h with
    | boolAll hnz _ _ =>
      rcases hnz with h | h | h
      · exact absurd rfl h
      · exact absurd rfl h
      · exact Or.inl h
    | boolShould hq hmq => exact Or.inr ⟨_, hq, hmq⟩
  · intro h
    rcases h with rfl | ⟨q, hq, hmq⟩
    · exact .boolAll (Or.inr (Or.inr rfl)) (by simp) (by simp)
    · exact .boolShould hq hmq

/-- C7: the built query is satisfied exactly when all supplied predicate
groups hold (logical AND at the top level): the text condition (or
nothing — `match_all` — when no term is supplied), the facet-value group
under the caller-chosen AND/OR, and the collection scope; an absent group
imposes nothing. -/
theorem c7_query_boolean_semantics (tm : String → Doc → Bool) (d : Doc)
    (input : CursorSearchInput) :
    Matches tm d (buildQuery input) ↔ specFilterSemantics tm d input := by
  obtain ⟨term, fvIds, fvOp, collId, collSlug, gbp, take, cursor, sort⟩ := input
  simp only [buildQuery, specFilterSemantics]
  rw [matches_bool_noshould_iff, List.forall_mem_append]
  refine and_congr ?_ (and_congr ?_ ?_)
  · rcases term with _ | t
    · simp [matches_matchAll_iff]
    · by_cases ht : t = "" <;>
        simp [ht, matches_matchAll_iff, matches_multiMatch_iff]
  · rcases fvIds with _ | ids
    · simp
    · rcases ids with _ | ⟨i, ids⟩
      · simp
      · by_cases hop : fvOp = some "AND"
        · simp [hop, matches_bool_noshould_iff, matches_termQ_iff, docFieldVals]
        · simp [hop, matches_bool_shouldOnly_iff, matches_termQ_iff, docFieldVals]
  · rcases collId with _ | cid
    · simp
    · by_cases hcid : cid = "" <;> simp [hcid, matches_termQ_iff, docFieldVals]

end DeepPagination
